import Mathlib

/-
Verification of the qwantz-daily comic archiver against its specification.

The development shallowly embeds the two Python modules of the repository:
`src/scraper.py` (acquisition: extract_comic_data, sanitize_filename,
get_file_extension, save_image, get_current_comic) and
`src/update_readme.py` (summary: get_most_recent_comic, update_readme).

Python strings are modelled as Lean `String` (a wrapper around `List Char`),
with the handful of Python string primitives the code uses (split, rsplit,
startswith, strip, replace, str.join behaviour of iteration over file lines)
defined explicitly so their semantics is visible.  Network and file I/O are
modelled by explicit oracles (`download`, `writeOk`, `readFile`) and an
explicit filesystem value, so every definition is executable.
-/

/-! ## Python string primitives -/

/-- Python `str.split(sep)` for a one-character separator, over char lists.
`pySplitL sep l` never returns `[]`; splitting the empty string gives `[[]]`,
exactly as `''.split(sep) == ['']` in Python. -/
def pySplitL (sep : Char) : List Char → List (List Char)
  | [] => [[]]
  | c :: cs =>
    match pySplitL sep cs with
    | [] => [[]]
    | p :: ps => if c = sep then [] :: p :: ps else (c :: p) :: ps

/-- Python `str.split(sep)` for a one-character separator, on `String`. -/
def pySplit (sep : Char) (s : String) : List String :=
  (pySplitL sep s.data).map String.mk

/-- Python `s.rsplit('.', 1)[0]`: everything before the last dot, or the whole
string when it has no dot. -/
def pyRsplitDot1Head (s : String) : String :=
  if ('.' : Char) ∈ s.data then
    String.mk ((s.data.reverse.dropWhile (fun c => c != '.')).tail.reverse)
  else s

/-- Python `s.startswith(t)` (here `t` is the candidate leading substring). -/
def pyStartswithB (t s : String) : Bool := t.data.isPrefixOf s.data

/-- Python `s.endswith(t)`. -/
def pyEndswith (t s : String) : Bool := t.data.isSuffixOf s.data

/-- The ASCII whitespace characters stripped by Python's `str.strip()`
(space, tab, newline, vertical tab, form feed, carriage return).  All data
handled by this program is ASCII, so the wider Unicode set is not modelled. -/
def pyIsSpace (c : Char) : Bool :=
  c == ' ' || c == '\t' || c == '\n' || c == Char.ofNat 11 || c == Char.ofNat 12 || c == '\r'

/-- Python `str.strip()`: drop whitespace from the front, then from the back. -/
def pyStrip (s : String) : String :=
  String.mk (((s.data.dropWhile pyIsSpace).reverse.dropWhile pyIsSpace).reverse)

/-- Iterating over a Python text file yields its lines, each including its
terminating newline (no empty final line when the file ends in a newline). -/
def splitAfterNl : List Char → List (List Char)
  | [] => []
  | c :: cs =>
    if c = '\n' then ['\n'] :: splitAfterNl cs
    else
      match splitAfterNl cs with
      | [] => [[c]]
      | l :: ls => (c :: l) :: ls

/-- The lines produced by iterating over a file whose contents is `s`. -/
def pyFileLines (s : String) : List String := (splitAfterNl s.data).map String.mk

/-- The character sequence of the `'Title:'` marker. -/
def titleMarker : List Char := ['T', 'i', 't', 'l', 'e', ':']

/-- Python `s.replace('Title:', '')`: remove every (leftmost, non-overlapping)
occurrence of the marker. -/
def pyRemoveTitleAll : List Char → List Char
  | 'T' :: 'i' :: 't' :: 'l' :: 'e' :: ':' :: rest => pyRemoveTitleAll rest
  | c :: cs => c :: pyRemoveTitleAll cs
  | [] => []

/-- `containsSeqB pat l` decides whether `pat` occurs as a contiguous
subsequence of `l` (Python's `pat in s`). -/
def containsSeqB (pat : List Char) : List Char → Bool
  | [] => pat.isEmpty
  | c :: cs => pat.isPrefixOf (c :: cs) || containsSeqB pat cs

/-- Python `s.replace(' ', '%20')` (used for GitHub-compatible image links). -/
def replaceSpaceL : List Char → List Char
  | [] => []
  | c :: cs => if c = ' ' then '%' :: '2' :: '0' :: replaceSpaceL cs else c :: replaceSpaceL cs

/-- `pyReplaceSpace` on `String`. -/
def pyReplaceSpace (s : String) : String := String.mk (replaceSpaceL s.data)

/-! ## Embedding of `src/scraper.py` -/

/-- `QWANTZ_BASE_URL` from `scraper.py`. -/
def QWANTZ_BASE_URL : String := "https://www.qwantz.com/"

/-- `INVALID_FILENAME_CHARS` from `scraper.py`. -/
def INVALID_FILENAME_CHARS : List Char :=
  ['/', '\\', '?', '%', '*', ':', '|', '"', '<', '>', '.']

/-- `sanitize_filename`: keep exactly the characters not in the forbidden set. -/
def sanitize_filename (filename : String) : String :=
  String.mk (filename.data.filter (fun c => !(decide (c ∈ INVALID_FILENAME_CHARS))))

/-- The comic `img` element as the extractor sees it: its `src` attribute and
its `title` attribute, either of which may be absent. -/
structure ComicImg where
  src : Option String
  title : Option String
deriving DecidableEq

/-- A parsed page, reduced to what `extract_comic_data` inspects: the result
of `soup.find('img', class_='comic')` (a bs4 `Tag` is truthy, so the Python
`if not comic_img` test is exactly the `None` test). -/
structure Soup where
  comic_img : Option ComicImg
deriving DecidableEq

/-- The record produced by extraction. -/
structure ComicData where
  image_url : String
  title : String
deriving DecidableEq

/-- `extract_comic_data` from `scraper.py`: fail when the element is missing
or its `src` is absent or empty (`if not image_src`); otherwise prefix the
site origin and default the title to `'unknown'`. -/
def extract_comic_data (soup : Soup) : Option ComicData :=
  match soup.comic_img with
  | none => none
  | some img =>
    match img.src with
    | none => none
    | some s =>
      if s = "" then none
      else some { image_url := QWANTZ_BASE_URL ++ s, title := img.title.getD "unknown" }

/-- `get_file_extension` from `scraper.py`:
`url.split('.')[-1].split('?')[0]`. -/
def get_file_extension (url : String) : String :=
  (pySplit '?' ((pySplit '.' url).getLastD "")).headD ""

/-- The base filename `get_current_comic` derives:
`image_url.split('/')[-1].rsplit('.', 1)[0]`. -/
def derived_base (url : String) : String :=
  pyRsplitDot1Head ((pySplit '/' url).getLastD "")

/-- Contents of a stored file: raw image bytes or metadata text. -/
inductive FileData where
  | bin (b : List Nat)
  | text (s : String)
deriving DecidableEq

/-- The filesystem seen by the acquisition flow: an association list from
path to contents, most recent write first. -/
abbrev FS := List (String × FileData)

/-- Reading a path back from the filesystem. -/
def fsRead (fs : FS) (p : String) : Option FileData :=
  (fs.find? (fun e => e.1 == p)).map (fun e => e.2)

/-- `save_image` from `scraper.py`.  The `writeOk` oracle models whether the
`open(filepath, 'wb')`/`write` pair raises `IOError`; on failure the function
returns `False` and the filesystem is unchanged. -/
def save_image (writeOk : String → Bool) (image_data : List Nat) (filepath : String)
    (fs : FS) : Bool × FS :=
  if writeOk filepath then (true, (filepath, FileData.bin image_data) :: fs) else (false, fs)

/-- The exact text `get_current_comic` writes to the metadata sidecar. -/
def metadataContent (title image_url : String) : String :=
  "Title: " ++ title ++ "\n" ++ "Image URL: " ++ image_url ++ "\n"

/-- `get_current_comic` from `scraper.py`.  The two network calls are
modelled by parameters: `soup?` is the result of `fetch_webpage` and
`download` the result of `download_image` per URL; `writeOk` models file
write success.  The returned Boolean is the function's return value and the
returned `FS` the filesystem after the call. -/
def get_current_comic (soup? : Option Soup) (download : String → Option (List Nat))
    (writeOk : String → Bool) (fs : FS) : Bool × FS :=
  match soup? with
  | none => (false, fs)
  | some soup =>
    match extract_comic_data soup with
    | none => (false, fs)
    | some comic_data =>
      let base_filename := derived_base comic_data.image_url
      match download comic_data.image_url with
      | none => (false, fs)
      | some image_data =>
        let file_extension := get_file_extension comic_data.image_url
        let image_path := base_filename ++ "." ++ file_extension
        match save_image writeOk image_data image_path fs with
        | (false, fs1) => (false, fs1)
        | (true, fs1) =>
          let metadata_path := base_filename ++ "_metadata.txt"
          if writeOk metadata_path then
            (true, (metadata_path,
              FileData.text (metadataContent comic_data.title comic_data.image_url)) :: fs1)
          else (false, fs1)

/-! ## Embedding of `src/update_readme.py` -/

/-- Python's `<` on strings over char lists: lexicographic comparison of
Unicode code points. -/
def pyStrLtL : List Char → List Char → Bool
  | [], [] => false
  | [], _ :: _ => true
  | _ :: _, [] => false
  | a :: as, b :: bs =>
    if a.toNat < b.toNat then true
    else if b.toNat < a.toNat then false
    else pyStrLtL as bs

/-- Python's `<` on strings. -/
def pyStrLt (a b : String) : Bool := pyStrLtL a.data b.data

/-- Descending insertion of a string into a list (comparison by Python's
code-point lexicographic string order). -/
def insertDesc (x : String) : List String → List String
  | [] => [x]
  | y :: ys => if pyStrLt y x then x :: y :: ys else y :: insertDesc x ys

/-- `sorted(names, reverse=True)`: descending lexicographic sort. -/
def sortDesc (l : List String) : List String := l.foldr insertDesc []

/-- The archive as `get_most_recent_comic` observes it: whether the `data`
directory exists, its entries (`os.listdir` order, with the `isdir` flag),
the filenames inside each dated subdirectory, and the readable text files
(`readFile d f` is the contents of file `f` in subdirectory `d`, or `none`
when it does not exist). -/
structure ArchiveState where
  dataDirExists : Bool
  listing : List (String × Bool)
  filesIn : String → List String
  readFile : String → String → Option String

/-- `glob.glob(os.path.join(d, '*.png'))` on the names in `d`: names ending
in `.png`, hidden files (leading dot) excluded, listing order preserved. -/
def globPng (names : List String) : List String :=
  names.filter (fun n => pyEndswith ".png" n && !(pyStartswithB "." n))

/-- The metadata scan loop of `get_most_recent_comic`: the first line
starting with `'Title:'` yields `line.replace('Title:', '').strip()`;
otherwise the sentinel stands. -/
def scanTitle : List String → String
  | [] => "No title available"
  | line :: rest =>
    if pyStartswithB "Title:" line then pyStrip (String.mk (pyRemoveTitleAll line.data))
    else scanTitle rest

/-- `get_most_recent_comic` from `update_readme.py`.  The relative image path
`os.path.relpath(os.path.join(data_dir, date, name), project_root)` is
`"data/" ++ date ++ "/" ++ name` (the data directory is the `data` child of
the project root), then spaces are URL-encoded.  `Path(image_path).stem` is
the name before its last dot; glob has already excluded leading-dot names. -/
def get_most_recent_comic (st : ArchiveState) : Option (String × String × String × String) :=
  if st.dataDirExists = true then
    match sortDesc ((st.listing.filter (fun e => e.2)).map (fun e => e.1)) with
    | [] => none
    | most_recent_date :: _ =>
      match globPng (st.filesIn most_recent_date) with
      | [] => none
      | image_name :: _ =>
        let comic_filename := pyRsplitDot1Head image_name
        let metadata_title :=
          match st.readFile most_recent_date (comic_filename ++ "_metadata.txt") with
          | none => "No title available"
          | some contents => scanTitle (pyFileLines contents)
        let rel_image_path := pyReplaceSpace ("data/" ++ most_recent_date ++ "/" ++ image_name)
        some (most_recent_date, comic_filename, rel_image_path, metadata_title)
  else none

/-- The fixed README template of `update_readme`. -/
def renderReadme (date filename image_path title : String) : String :=
  "# Dinosaur Comics Daily\n\n#### " ++ date ++ "\n\n![" ++ filename ++ "](" ++
    image_path ++ ")\n\n**" ++ title ++ "**\n\n---\n\n" ++
    "*This README is automatically updated with the latest Dinosaur Comics comic.*\n"

/-- The state `update_readme` acts on: the archive plus the current contents
of `README.md`. -/
structure ReadmeState where
  archive : ArchiveState
  readme : String

/-- `update_readme` from `update_readme.py`: resolve the latest entry; when
none is found return leaving the README untouched, otherwise overwrite it
with the rendered template. -/
def update_readme (st : ReadmeState) : ReadmeState :=
  match get_most_recent_comic st.archive with
  | none => st
  | some (date, filename, image_path, title) =>
    { st with readme := renderReadme date filename image_path title }

/-! ## Spec-side definitions and concrete states used by the claims -/

/-- The extension exactly as claim C6 words it: the substring after the last
dot of the URL's last path segment, with the trailing query-string component
stripped (split on `?`, keep the first part). -/
def extension_per_claim (url : String) : String :=
  (pySplit '.' ((pySplit '?' ((pySplit '/' url).getLastD "")).headD "")).getLastD ""

/-- The resolved title exactly as claim C7 words it: the remainder of the
first line starting with the `Title:` marker after that marker (its six
characters), trimmed of surrounding whitespace; the sentinel otherwise. -/
def title_per_claim (contents : String) : String :=
  match (pyFileLines contents).find? (fun l => pyStartswithB "Title:" l) with
  | none => "No title available"
  | some line => pyStrip (String.mk (line.data.drop 6))

/-- The characters after the last dot of a string (the whole string when it
has no dot); used to characterize the code's extension derivation. -/
def afterLastDot (s : String) : String :=
  String.mk ((s.data.reverse.takeWhile (fun c => c != '.')).reverse)

/-- Truncation at the first `'?'`. -/
def upToQuery (s : String) : String :=
  String.mk (s.data.takeWhile (fun c => c != '?'))

/-- An archive with entries `2024-01-01` and `2024-01-02`, one image each
(claim C3's example scenario). -/
def c3state : ArchiveState :=
  { dataDirExists := true
    listing := [("2024-01-01", true), ("2024-01-02", true)]
    filesIn := fun d =>
      if d = "2024-01-02" then ["comic2.png"]
      else if d = "2024-01-01" then ["comic1.png"] else []
    readFile := fun _ _ => none }

/-- An archive whose single metadata file has a title line whose remainder
itself contains the `Title:` marker. -/
def c7state : ArchiveState :=
  { dataDirExists := true
    listing := [("2024-01-01", true)]
    filesIn := fun d => if d = "2024-01-01" then ["comic.png"] else []
    readFile := fun d f =>
      if d = "2024-01-01" then
        if f = "comic_metadata.txt" then some "Title: Title: X\n" else none
      else none }

/-- An archive holding exactly the metadata sidecar the Archive Writer
produces for title `t` and image URL `u` (claim C10's round trip). -/
def roundTripState (t u : String) : ArchiveState :=
  { dataDirExists := true
    listing := [("2024-01-01", true)]
    filesIn := fun d => if d = "2024-01-01" then ["comic.png"] else []
    readFile := fun d f =>
      if d = "2024-01-01" then
        if f = "comic_metadata.txt" then some (metadataContent t u) else none
      else none }

/-- An archive root with no dated subdirectory at all. -/
def emptyArchive : ArchiveState :=
  { dataDirExists := true
    listing := []
    filesIn := fun _ => []
    readFile := fun _ _ => none }

/-! ## Supporting lemmas about the string primitives -/

theorem pySplitL_ne_nil (sep : Char) (l : List Char) : pySplitL sep l ≠ [] := by
  induction l with
  | nil => simp [pySplitL]
  | cons c cs ih =>
    simp only [pySplitL]
    cases h : pySplitL sep cs with
    | nil => simp
    | cons p ps =>
      by_cases hc : c = sep <;> simp [hc]

theorem pySplitL_headD (sep : Char) (l : List Char) :
    (pySplitL sep l).headD [] = l.takeWhile (fun c => c != sep) := by
  induction l with
  | nil => simp [pySplitL]
  | cons c cs ih =>
    simp only [pySplitL]
    cases h : pySplitL sep cs with
    | nil => exact absurd h (pySplitL_ne_nil sep cs)
    | cons p ps =>
      rw [h] at ih
      by_cases hc : c = sep
      · simp [hc, List.takeWhile_cons]
      · simp only [if_neg hc, List.headD_cons, List.takeWhile_cons]
        have : (c != sep) = true := by simpa using hc
        simp [this, ← ih]

theorem pySplitL_of_not_mem {sep : Char} {l : List Char} (h : sep ∉ l) :
    pySplitL sep l = [l] := by
  induction l with
  | nil => rfl
  | cons c cs ih =>
    have hc : c ≠ sep := fun hcc => h (hcc ▸ List.mem_cons_self c cs)
    have hcs : sep ∉ cs := fun hm => h (List.mem_cons_of_mem c hm)
    simp only [pySplitL, ih hcs, if_neg hc]

theorem pySplitL_append_sep (sep : Char) (x y : List Char) :
    pySplitL sep (x ++ sep :: y) = pySplitL sep x ++ pySplitL sep y := by
  induction x with
  | nil =>
    simp only [List.nil_append, pySplitL]
    cases h : pySplitL sep y with
    | nil => exact absurd h (pySplitL_ne_nil sep y)
    | cons p ps => simp [pySplitL]
  | cons c cs ih =>
    cases h : pySplitL sep cs with
    | nil => exact absurd h (pySplitL_ne_nil sep cs)
    | cons p ps =>
      rw [List.cons_append]
      show (match pySplitL sep (cs ++ sep :: y) with
        | [] => [[]]
        | p :: ps => if c = sep then [] :: p :: ps else (c :: p) :: ps) = _
      rw [ih, h]
      simp only [pySplitL, h, List.cons_append]
      by_cases hc : c = sep <;> simp [hc]

theorem exists_last_decomp {sep : Char} {l : List Char} (h : sep ∈ l) :
    ∃ x y, l = x ++ sep :: y ∧ sep ∉ y := by
  induction l with
  | nil => cases h
  | cons c cs ih =>
    by_cases hm : sep ∈ cs
    · obtain ⟨x, y, hxy, hy⟩ := ih hm
      exact ⟨c :: x, y, by simp [hxy], hy⟩
    · have hc : c = sep := by
        rcases List.mem_cons.mp h with h1 | h2
        · exact h1.symm
        · exact absurd h2 hm
      exact ⟨[], cs, by simp [hc], hm⟩

theorem getLastD_default_irrel {α : Type} {b : List α} (hb : b ≠ []) (d d' : α) :
    b.getLastD d = b.getLastD d' := by
  cases b with
  | nil => exact absurd rfl hb
  | cons x xs => rw [List.getLastD_cons, List.getLastD_cons]

theorem getLastD_append_ne_nil {α : Type} {a b : List α} (hb : b ≠ []) (d : α) :
    (a ++ b).getLastD d = b.getLastD d := by
  cases b with
  | nil => exact absurd rfl hb
  | cons x xs =>
    rw [List.getLastD_eq_getLast?, List.getLastD_eq_getLast?, List.getLast?_append]
    cases h : (x :: xs).getLast? with
    | none => simp [List.getLast?_eq_none_iff] at h
    | some v => simp [Option.or]

theorem revTakeWhile_of_not_mem {sep : Char} {l : List Char} (h : sep ∉ l) :
    ((l.reverse.takeWhile (fun c => c != sep)).reverse) = l := by
  have : l.reverse.takeWhile (fun c => c != sep) = l.reverse := by
    apply List.takeWhile_eq_self_iff.mpr ?_
    intro a ha
    have hmem : a ∈ l := List.mem_reverse.mp ha
    have hne : a ≠ sep := fun heq => h (heq ▸ hmem)
    simpa using hne
  rw [this, List.reverse_reverse]

theorem revTakeWhile_last_decomp (sep : Char) (x y : List Char) (hy : sep ∉ y) :
    (((x ++ sep :: y).reverse.takeWhile (fun c => c != sep)).reverse) = y := by
  have h1 : (x ++ sep :: y).reverse = y.reverse ++ sep :: x.reverse := by
    simp
  rw [h1]
  have h2 : ∀ a ∈ y.reverse, (a != sep) = true := by
    intro a ha
    have hmem : a ∈ y := List.mem_reverse.mp ha
    have hne : a ≠ sep := fun heq => hy (heq ▸ hmem)
    simpa using hne
  rw [List.takeWhile_append_of_pos h2]
  have h3 : ((sep :: x.reverse).takeWhile (fun c => c != sep)) = [] := by
    simp
  rw [h3, List.append_nil, List.reverse_reverse]

theorem revDropWhile_last_decomp (sep : Char) (x y : List Char) (hy : sep ∉ y) :
    ((((x ++ sep :: y).reverse.dropWhile (fun c => c != sep)).tail).reverse) = x := by
  have h1 : (x ++ sep :: y).reverse = y.reverse ++ sep :: x.reverse := by
    simp
  rw [h1]
  have h2 : ∀ a ∈ y.reverse, (a != sep) = true := by
    intro a ha
    have hmem : a ∈ y := List.mem_reverse.mp ha
    have hne : a ≠ sep := fun heq => hy (heq ▸ hmem)
    simpa using hne
  rw [List.dropWhile_append_of_pos h2]
  have h3 : ((sep :: x.reverse).dropWhile (fun c => c != sep)) = sep :: x.reverse := by
    simp
  rw [h3, List.tail_cons, List.reverse_reverse]

theorem pySplit_getLastD (sep : Char) (s : String) :
    (pySplit sep s).getLastD "" = String.mk ((pySplitL sep s.data).getLastD []) := by
  unfold pySplit
  cases h : pySplitL sep s.data with
  | nil => exact absurd h (pySplitL_ne_nil sep s.data)
  | cons p ps =>
    rw [getLastD_default_irrel (by simp) "" (String.mk [])]
    exact List.getLastD_map String.mk (p :: ps) []

theorem pySplit_headD (sep : Char) (s : String) :
    (pySplit sep s).headD "" = String.mk (s.data.takeWhile (fun c => c != sep)) := by
  unfold pySplit
  cases h : pySplitL sep s.data with
  | nil => exact absurd h (pySplitL_ne_nil sep s.data)
  | cons p ps =>
    rw [List.map_cons, List.headD_cons]
    have h2 := pySplitL_headD sep s.data
    rw [h, List.headD_cons] at h2
    rw [h2]

theorem get_file_extension_eq (url : String) :
    get_file_extension url = upToQuery (afterLastDot url) := by
  unfold get_file_extension
  rw [pySplit_getLastD]
  have hA : (pySplitL '.' url.data).getLastD [] = (afterLastDot url).data := by
    by_cases hd : ('.' : Char) ∈ url.data
    · obtain ⟨x, y, hxy, hy⟩ := exists_last_decomp hd
      rw [hxy, pySplitL_append_sep, getLastD_append_ne_nil (pySplitL_ne_nil '.' y) [],
        pySplitL_of_not_mem hy]
      show y = (afterLastDot url).data
      show y = (url.data.reverse.takeWhile (fun c => c != '.')).reverse
      rw [hxy, revTakeWhile_last_decomp '.' x y hy]
    · rw [pySplitL_of_not_mem hd]
      show url.data = (afterLastDot url).data
      show url.data = (url.data.reverse.takeWhile (fun c => c != '.')).reverse
      rw [revTakeWhile_of_not_mem hd]
  rw [hA]
  show (pySplit '?' (afterLastDot url)).headD "" = upToQuery (afterLastDot url)
  rw [pySplit_headD]
  rfl

theorem pyRsplitDot1Head_decomp (s : String) (hd : ('.' : Char) ∈ s.data) :
    pyRsplitDot1Head s ++ "." ++ afterLastDot s = s ∧
    ('.' : Char) ∉ (afterLastDot s).data := by
  obtain ⟨x, y, hxy, hy⟩ := exists_last_decomp hd
  have hafter : (afterLastDot s).data = y := by
    show (s.data.reverse.takeWhile (fun c => c != '.')).reverse = y
    rw [hxy, revTakeWhile_last_decomp '.' x y hy]
  have hbase : pyRsplitDot1Head s = String.mk x := by
    unfold pyRsplitDot1Head
    rw [if_pos hd]
    have : (s.data.reverse.dropWhile (fun c => c != '.')).tail.reverse = x := by
      rw [hxy, revDropWhile_last_decomp '.' x y hy]
    rw [this]
  constructor
  · have hdata : (pyRsplitDot1Head s ++ "." ++ afterLastDot s).data = s.data := by
      rw [String.data_append, String.data_append, hbase, hafter, hxy]
      simp
    calc pyRsplitDot1Head s ++ "." ++ afterLastDot s
        = String.mk (pyRsplitDot1Head s ++ "." ++ afterLastDot s).data := rfl
      _ = String.mk s.data := by rw [hdata]
      _ = s := rfl
  · rw [hafter] at *
    exact hy

/-! ## Claim C1: the extractor -/

/-- C1: extraction fails when the comic element is missing or its source
attribute is absent or empty; otherwise it succeeds with the origin-prefixed
URL and the title attribute, defaulting to the sentinel `"unknown"`. -/
theorem extract_comic_data_spec (soup : Soup) :
    (soup.comic_img = none → extract_comic_data soup = none) ∧
    (∀ img, soup.comic_img = some img → img.src = none → extract_comic_data soup = none) ∧
    (∀ img, soup.comic_img = some img → img.src = some "" → extract_comic_data soup = none) ∧
    (∀ img s, soup.comic_img = some img → img.src = some s → s ≠ "" →
      extract_comic_data soup =
        some { image_url := QWANTZ_BASE_URL ++ s, title := img.title.getD "unknown" }) := by
  refine ⟨?_, ?_, ?_, ?_⟩
  · intro h; simp [extract_comic_data, h]
  · intro img h hs; simp [extract_comic_data, h, hs]
  · intro img h hs; simp [extract_comic_data, h, hs]
  · intro img s h hs hne; simp [extract_comic_data, h, hs, hne]

/-- Witness for C1: a page whose element has source `"comics/strip.png"` and
no title attribute extracts to the prefixed URL with the `"unknown"` title. -/
theorem extract_comic_data_spec_witness :
    extract_comic_data ⟨some ⟨some "comics/strip.png", none⟩⟩ =
      some { image_url := QWANTZ_BASE_URL ++ "comics/strip.png",
             title := (none : Option String).getD "unknown" } :=
  (extract_comic_data_spec ⟨some ⟨some "comics/strip.png", none⟩⟩).2.2.2
    ⟨some "comics/strip.png", none⟩ "comics/strip.png" rfl rfl (by decide)

/-! ## Claim C4: the sanitizer -/

/-- C4: `sanitize_filename` is a pure total function whose output contains no
character of the forbidden set; it is the identity on strings containing none
of them; and it is idempotent. -/
theorem sanitize_filename_spec (x : String) :
    (∀ c ∈ (sanitize_filename x).data, c ∉ INVALID_FILENAME_CHARS) ∧
    ((∀ c ∈ x.data, c ∉ INVALID_FILENAME_CHARS) → sanitize_filename x = x) ∧
    sanitize_filename (sanitize_filename x) = sanitize_filename x := by
  refine ⟨?_, ?_, ?_⟩
  · intro c hc
    simp only [sanitize_filename, List.mem_filter] at hc
    simpa using hc.2
  · intro h
    have : x.data.filter (fun c => !(decide (c ∈ INVALID_FILENAME_CHARS))) = x.data :=
      List.filter_eq_self.mpr (fun a ha => by simpa using h a ha)
    calc sanitize_filename x = String.mk (x.data.filter _) := rfl
      _ = String.mk x.data := by rw [this]
      _ = x := rfl
  · have : (sanitize_filename x).data.filter
        (fun c => !(decide (c ∈ INVALID_FILENAME_CHARS))) = (sanitize_filename x).data := by
      apply List.filter_eq_self.mpr
      intro a ha
      simp only [sanitize_filename, List.mem_filter] at ha
      exact ha.2
    calc sanitize_filename (sanitize_filename x)
        = String.mk ((sanitize_filename x).data.filter _) := rfl
      _ = String.mk (sanitize_filename x).data := by rw [this]
      _ = sanitize_filename x := rfl

/-- Witness for C4 at the concrete inputs `"a/b.png"` and `"ab"`. -/
theorem sanitize_filename_spec_witness :
    (∀ c ∈ (sanitize_filename "a/b.png").data, c ∉ INVALID_FILENAME_CHARS) ∧
    ((∀ c ∈ ("ab" : String).data, c ∉ INVALID_FILENAME_CHARS) ∧
      sanitize_filename "ab" = "ab") :=
  ⟨(sanitize_filename_spec "a/b.png").1,
    ⟨by decide, (sanitize_filename_spec "ab").2.1 (by decide)⟩⟩

/-! ## Claim C6: filename derivation -/

/-- C6 (amended): the code derives the extension from the whole URL, not from
its last path segment: it is the substring after the last dot of the entire
URL, truncated at the first subsequent `'?'`.  The base filename is the last
slash-segment (query string included) with everything from its last dot
onward removed.  In particular, for the claim's own example URL ending in
`.../foo.png?cache=1`, the extension is `png` and the base filename `foo`. -/
theorem file_extension_amended (url : String) :
    get_file_extension url = upToQuery (afterLastDot url) ∧
    (∀ s : String, ('.' : Char) ∈ s.data →
      pyRsplitDot1Head s ++ "." ++ afterLastDot s = s ∧
      ('.' : Char) ∉ (afterLastDot s).data) ∧
    get_file_extension "https://www.qwantz.com/comics/foo.png?cache=1" = "png" ∧
    derived_base "https://www.qwantz.com/comics/foo.png?cache=1" = "foo" :=
  ⟨get_file_extension_eq url,
   fun s hd => pyRsplitDot1Head_decomp s hd,
   by decide, by decide⟩

/-- Witness for the amended C6, instantiated at `"foo.png"`. -/
theorem file_extension_amended_witness :
    (('.' : Char) ∈ ("foo.png" : String).data) ∧
    pyRsplitDot1Head "foo.png" ++ "." ++ afterLastDot "foo.png" = "foo.png" ∧
    ('.' : Char) ∉ (afterLastDot "foo.png").data :=
  ⟨by decide, ((file_extension_amended "x").2.1 "foo.png" (by decide)).1,
    ((file_extension_amended "x").2.1 "foo.png" (by decide)).2⟩

/-- C6 is false as stated: when the query string itself contains a dot, the
code takes the extension from the query string, while the claim's reading
(substring after the last dot of the last path segment, query stripped)
gives `png`; likewise the derived base filename keeps the query prefix. -/
theorem file_extension_cex :
    get_file_extension "https://www.qwantz.com/comics/foo.png?v=1.2" = "2" ∧
    extension_per_claim "https://www.qwantz.com/comics/foo.png?v=1.2" = "png" ∧
    get_file_extension "https://www.qwantz.com/comics/foo.png?v=1.2" ≠
      extension_per_claim "https://www.qwantz.com/comics/foo.png?v=1.2" ∧
    derived_base "https://www.qwantz.com/comics/foo.png?v=1.2" = "foo.png?v=1" :=
  ⟨by decide, by decide, by decide, by decide⟩

/-! ## Claims C2, C5, C8: the archive writer -/

theorem image_metadata_path_ne (base e : String) :
    base ++ "." ++ e ≠ base ++ "_metadata.txt" := by
  intro h
  have hd := congrArg String.data h
  rw [String.data_append, String.data_append, String.data_append] at hd
  rw [List.append_assoc] at hd
  have h2 := List.append_cancel_left hd
  have hdot : ("." : String).data = ['.'] := rfl
  rw [hdot] at h2
  have hmeta : ("_metadata.txt" : String).data = '_' :: ("metadata.txt" : String).data := rfl
  rw [hmeta] at h2
  rw [List.singleton_append] at h2
  injection h2 with h3 h4
  exact absurd h3 (by decide)

/-- C2: after a successful archive run for the extracted record and the
downloaded bytes `b`, the image file at `<base>.<ext>` holds exactly the
bytes `b`, and the sidecar `<base>_metadata.txt` holds exactly the two
newline-terminated lines `Title: <title>` and `Image URL: <image_url>`. -/
theorem archive_round_trip (soup : Soup) (cd : ComicData) (b : List Nat)
    (download : String → Option (List Nat)) (writeOk : String → Bool) (fs : FS)
    (hex : extract_comic_data soup = some cd)
    (hdl : download cd.image_url = some b)
    (hok : (get_current_comic (some soup) download writeOk fs).1 = true) :
    fsRead (get_current_comic (some soup) download writeOk fs).2
        (derived_base cd.image_url ++ "." ++ get_file_extension cd.image_url) =
      some (FileData.bin b) ∧
    fsRead (get_current_comic (some soup) download writeOk fs).2
        (derived_base cd.image_url ++ "_metadata.txt") =
      some (FileData.text
        ("Title: " ++ cd.title ++ "\n" ++ "Image URL: " ++ cd.image_url ++ "\n")) := by
  by_cases h1 : writeOk (derived_base cd.image_url ++ "." ++ get_file_extension cd.image_url)
  · by_cases h2 : writeOk (derived_base cd.image_url ++ "_metadata.txt")
    · have hrun : get_current_comic (some soup) download writeOk fs =
          (true,
            (derived_base cd.image_url ++ "_metadata.txt",
              FileData.text (metadataContent cd.title cd.image_url)) ::
            (derived_base cd.image_url ++ "." ++ get_file_extension cd.image_url,
              FileData.bin b) :: fs) := by
        simp [get_current_comic, hex, hdl, save_image, h1, h2]
      rw [hrun]
      have hne : ((derived_base cd.image_url ++ "_metadata.txt" ==
          derived_base cd.image_url ++ "." ++ get_file_extension cd.image_url) = false) :=
        beq_eq_false_iff_ne.mpr
          (fun h => image_metadata_path_ne (derived_base cd.image_url)
            (get_file_extension cd.image_url) h.symm)
      constructor
      · simp [fsRead, List.find?, hne]
      · simp [fsRead, List.find?, metadataContent]
    · have hrun : (get_current_comic (some soup) download writeOk fs).1 = false := by
        simp [get_current_comic, hex, hdl, save_image, h1, h2]
      rw [hrun] at hok
      cases hok
  · have hrun : (get_current_comic (some soup) download writeOk fs).1 = false := by
      simp [get_current_comic, hex, hdl, save_image, h1]
    rw [hrun] at hok
    cases hok

/-- Witness for C2 at a concrete page, byte list and all-succeeding writes. -/
theorem archive_round_trip_witness :
    extract_comic_data ⟨some ⟨some "comics/strip.png", some "T"⟩⟩ =
      some ⟨"https://www.qwantz.com/comics/strip.png", "T"⟩ ∧
    fsRead (get_current_comic (some ⟨some ⟨some "comics/strip.png", some "T"⟩⟩)
        (fun _ => some [137, 80]) (fun _ => true) []).2
        (derived_base "https://www.qwantz.com/comics/strip.png" ++ "." ++
          get_file_extension "https://www.qwantz.com/comics/strip.png") =
      some (FileData.bin [137, 80]) :=
  ⟨by decide,
    (archive_round_trip ⟨some ⟨some "comics/strip.png", some "T"⟩⟩
      ⟨"https://www.qwantz.com/comics/strip.png", "T"⟩ [137, 80]
      (fun _ => some [137, 80]) (fun _ => true) [] (by decide) rfl (by decide)).1⟩

/-- C5: when writing the image file fails, `get_current_comic` returns
`False` and the filesystem is completely unchanged — in particular no
metadata file is written; the metadata write is only reached after a
successful image write. -/
theorem image_write_failure_aborts (soup : Soup) (cd : ComicData) (b : List Nat)
    (download : String → Option (List Nat)) (writeOk : String → Bool) (fs : FS)
    (hex : extract_comic_data soup = some cd)
    (hdl : download cd.image_url = some b)
    (hfail : writeOk (derived_base cd.image_url ++ "." ++
      get_file_extension cd.image_url) = false) :
    get_current_comic (some soup) download writeOk fs = (false, fs) := by
  simp [get_current_comic, hex, hdl, save_image, hfail]

/-- Witness for C5: an all-failing write oracle leaves the filesystem empty. -/
theorem image_write_failure_aborts_witness :
    extract_comic_data ⟨some ⟨some "comics/strip.png", some "T"⟩⟩ =
      some ⟨"https://www.qwantz.com/comics/strip.png", "T"⟩ ∧
    get_current_comic (some ⟨some ⟨some "comics/strip.png", some "T"⟩⟩)
      (fun _ => some [1]) (fun _ => false) [] = (false, []) :=
  ⟨by decide,
    image_write_failure_aborts ⟨some ⟨some "comics/strip.png", some "T"⟩⟩
      ⟨"https://www.qwantz.com/comics/strip.png", "T"⟩ [1]
      (fun _ => some [1]) (fun _ => false) [] (by decide) rfl rfl⟩

/-- C8 (amended): no sanitization is applied anywhere in the acquisition
flow; the base filename used for both the image file and the metadata file
is the raw derived name (last URL segment with its final extension removed),
not `sanitize_filename` of it — the sanitizer is defined but never invoked. -/
theorem unsanitized_paths (soup : Soup) (cd : ComicData) (b : List Nat)
    (download : String → Option (List Nat)) (writeOk : String → Bool) (fs : FS)
    (hex : extract_comic_data soup = some cd)
    (hdl : download cd.image_url = some b)
    (hok : (get_current_comic (some soup) download writeOk fs).1 = true) :
    (get_current_comic (some soup) download writeOk fs).2 =
      (derived_base cd.image_url ++ "_metadata.txt",
        FileData.text (metadataContent cd.title cd.image_url)) ::
      (derived_base cd.image_url ++ "." ++ get_file_extension cd.image_url,
        FileData.bin b) :: fs := by
  by_cases h1 : writeOk (derived_base cd.image_url ++ "." ++ get_file_extension cd.image_url)
  · by_cases h2 : writeOk (derived_base cd.image_url ++ "_metadata.txt")
    · simp [get_current_comic, hex, hdl, save_image, h1, h2]
    · have hrun : (get_current_comic (some soup) download writeOk fs).1 = false := by
        simp [get_current_comic, hex, hdl, save_image, h1, h2]
      rw [hrun] at hok
      cases hok
  · have hrun : (get_current_comic (some soup) download writeOk fs).1 = false := by
      simp [get_current_comic, hex, hdl, save_image, h1]
    rw [hrun] at hok
    cases hok

/-- Witness for the amended C8 at a URL needing no sanitization. -/
theorem unsanitized_paths_witness :
    extract_comic_data ⟨some ⟨some "comics/strip.png", some "T"⟩⟩ =
      some ⟨"https://www.qwantz.com/comics/strip.png", "T"⟩ ∧
    (get_current_comic (some ⟨some ⟨some "comics/strip.png", some "T"⟩⟩)
        (fun _ => some [7]) (fun _ => true) []).2 =
      [(derived_base "https://www.qwantz.com/comics/strip.png" ++ "_metadata.txt",
         FileData.text (metadataContent "T" "https://www.qwantz.com/comics/strip.png")),
       (derived_base "https://www.qwantz.com/comics/strip.png" ++ "." ++
         get_file_extension "https://www.qwantz.com/comics/strip.png", FileData.bin [7])] :=
  ⟨by decide,
    unsanitized_paths ⟨some ⟨some "comics/strip.png", some "T"⟩⟩
      ⟨"https://www.qwantz.com/comics/strip.png", "T"⟩ [7]
      (fun _ => some [7]) (fun _ => true) [] (by decide) rfl (by decide)⟩

/-- C8 is false as stated: for a source path containing `'?'`, the base
filename actually used is the raw `a?b`, not its sanitized form `ab` — the
run writes `a?b.png` and `a?b_metadata.txt`. -/
theorem sanitizer_not_applied_cex :
    derived_base "https://www.qwantz.com/comics/a?b.png" = "a?b" ∧
    sanitize_filename "a?b" = "ab" ∧
    (get_current_comic (some ⟨some ⟨some "comics/a?b.png", some "T"⟩⟩)
        (fun _ => some [137]) (fun _ => true) []).2 =
      [("a?b_metadata.txt",
         FileData.text "Title: T\nImage URL: https://www.qwantz.com/comics/a?b.png\n"),
       ("a?b.png", FileData.bin [137])] ∧
    ("a?b" : String) ≠ "ab" :=
  ⟨by decide, by decide, by decide, by decide⟩

/-! ## Order lemmas for the descending sort -/

theorem pyStrLtL_irrefl (l : List Char) : pyStrLtL l l = false := by
  induction l with
  | nil => rfl
  | cons x xs ih => simp [pyStrLtL, ih]

theorem pyStrLtL_asymm {a b : List Char} (h : pyStrLtL a b = true) : pyStrLtL b a = false := by
  induction a generalizing b with
  | nil =>
    cases b with
    | nil => simp [pyStrLtL] at h
    | cons y ys => simp [pyStrLtL]
  | cons x xs ih =>
    cases b with
    | nil => simp [pyStrLtL] at h
    | cons y ys =>
      simp only [pyStrLtL] at h ⊢
      by_cases h1 : x.toNat < y.toNat
      · have h2 : ¬ y.toNat < x.toNat := by omega
        have h3 : ¬ x.toNat = y.toNat := by omega
        simp [h1, h2, h3]
      · by_cases h2 : y.toNat < x.toNat
        · simp [h1, h2] at h
        · simp [h1, h2] at h ⊢
          exact ih h

theorem pyStrLtL_trans {a b c : List Char} (h1 : pyStrLtL a b = true)
    (h2 : pyStrLtL b c = true) : pyStrLtL a c = true := by
  induction a generalizing b c with
  | nil =>
    cases c with
    | nil =>
      cases b with
      | nil => simp [pyStrLtL] at h1
      | cons y ys => simp [pyStrLtL] at h2
    | cons z zs => simp [pyStrLtL]
  | cons x xs ih =>
    cases b with
    | nil => simp [pyStrLtL] at h1
    | cons y ys =>
      cases c with
      | nil => simp [pyStrLtL] at h2
      | cons z zs =>
        simp only [pyStrLtL] at h1 h2 ⊢
        by_cases hxy : x.toNat < y.toNat <;> by_cases hyz : y.toNat < z.toNat
        · have hq : x.toNat < z.toNat := by omega
          simp [hq]
        · by_cases hzy : z.toNat < y.toNat
          · simp [hyz, hzy] at h2
          · have hq : x.toNat < z.toNat := by omega
            simp [hq]
        · by_cases hyx : y.toNat < x.toNat
          · simp [hxy, hyx] at h1
          · have hq : x.toNat < z.toNat := by omega
            simp [hq]
        · by_cases hyx : y.toNat < x.toNat
          · simp [hxy, hyx] at h1
          · by_cases hzy : z.toNat < y.toNat
            · simp [hyz, hzy] at h2
            · have hxz : ¬ x.toNat < z.toNat := by omega
              have hzx : ¬ z.toNat < x.toNat := by omega
              simp [hxy, hyx] at h1
              simp [hyz, hzy] at h2
              simp [hxz, hzx]
              exact ih h1 h2

theorem mem_insertDesc {a x : String} {l : List String} :
    a ∈ insertDesc x l ↔ a = x ∨ a ∈ l := by
  induction l with
  | nil => simp [insertDesc]
  | cons y ys ih =>
    simp only [insertDesc]
    by_cases h : pyStrLt y x = true
    · simp [h, List.mem_cons]
    · simp only [if_neg h, List.mem_cons, ih]
      tauto

theorem insertDesc_ne_nil (x : String) (l : List String) : insertDesc x l ≠ [] := by
  cases l with
  | nil => simp [insertDesc]
  | cons y ys =>
    simp only [insertDesc]
    by_cases h : pyStrLt y x = true <;> simp [h]

theorem sorted_insertDesc {x : String} {l : List String}
    (hl : List.Sorted (fun a b => pyStrLt a b = false) l) :
    List.Sorted (fun a b => pyStrLt a b = false) (insertDesc x l) := by
  induction l with
  | nil => simp [insertDesc]
  | cons y ys ih =>
    rw [List.sorted_cons] at hl
    obtain ⟨hy, hys⟩ := hl
    simp only [insertDesc]
    by_cases h : pyStrLt y x = true
    · rw [if_pos h, List.sorted_cons]
      refine ⟨?_, List.sorted_cons.mpr ⟨hy, hys⟩⟩
      intro b hb
      rcases List.mem_cons.mp hb with rfl | hb2
      · exact pyStrLtL_asymm h
      · cases hxb : pyStrLt x b with
        | false => rfl
        | true =>
          have h2 : pyStrLt y b = true := pyStrLtL_trans h hxb
          rw [hy b hb2] at h2
          exact Bool.noConfusion h2
    · rw [if_neg h, List.sorted_cons]
      refine ⟨?_, ih hys⟩
      intro b hb
      rcases mem_insertDesc.mp hb with rfl | hb2
      · exact Bool.not_eq_true _ ▸ (by revert h; cases pyStrLt y b <;> simp)
      · exact hy b hb2

theorem mem_sortDesc {a : String} {l : List String} : a ∈ sortDesc l ↔ a ∈ l := by
  induction l with
  | nil => simp [sortDesc]
  | cons x xs ih =>
    show a ∈ insertDesc x (sortDesc xs) ↔ _
    rw [mem_insertDesc, ih]
    simp

theorem sorted_sortDesc (l : List String) :
    List.Sorted (fun a b => pyStrLt a b = false) (sortDesc l) := by
  induction l with
  | nil => simp [sortDesc]
  | cons x xs ih => exact sorted_insertDesc ih

/-! ## Claim C3: latest-entry resolution -/

/-- C3: the resolver returns `none` when there are no subdirectories; when
there are, the selected head of the descending sort is a subdirectory name
that no other subdirectory name exceeds lexically; if the selected directory
has no `.png` file the result is `none`, and any successful result carries
the selected date; on the two-directory example it picks `2024-01-02`. -/
theorem resolver_spec (st : ArchiveState) :
    (st.listing.filter (fun e => e.2) = [] → get_most_recent_comic st = none) ∧
    (∀ d ds, sortDesc ((st.listing.filter (fun e => e.2)).map (fun e => e.1)) = d :: ds →
      (d ∈ (st.listing.filter (fun e => e.2)).map (fun e => e.1) ∧
        ∀ x ∈ (st.listing.filter (fun e => e.2)).map (fun e => e.1), pyStrLt d x = false) ∧
      (st.dataDirExists = true → globPng (st.filesIn d) = [] →
        get_most_recent_comic st = none) ∧
      (∀ r, get_most_recent_comic st = some r → r.1 = d)) ∧
    (get_most_recent_comic c3state).map (fun r => r.1) = some "2024-01-02" := by
  refine ⟨?_, ?_, by decide⟩
  · intro h
    by_cases hex : st.dataDirExists = true
    · simp [get_most_recent_comic, hex, h, sortDesc]
    · simp [get_most_recent_comic, hex]
  · intro d ds hsort
    refine ⟨⟨?_, ?_⟩, ?_, ?_⟩
    · have hmem : d ∈ sortDesc ((st.listing.filter (fun e => e.2)).map (fun e => e.1)) := by
        rw [hsort]; exact List.mem_cons_self d ds
      exact mem_sortDesc.mp hmem
    · intro x hx
      have hx2 : x ∈ sortDesc ((st.listing.filter (fun e => e.2)).map (fun e => e.1)) :=
        mem_sortDesc.mpr hx
      rw [hsort] at hx2
      rcases List.mem_cons.mp hx2 with rfl | hx3
      · exact pyStrLtL_irrefl x.data
      · have hs := sorted_sortDesc ((st.listing.filter (fun e => e.2)).map (fun e => e.1))
        rw [hsort, List.sorted_cons] at hs
        exact hs.1 x hx3
    · intro hex hpng
      simp [get_most_recent_comic, hex, hsort, hpng]
    · intro r hr
      by_cases hex : st.dataDirExists = true
      · rw [get_most_recent_comic, if_pos hex, hsort] at hr
        simp only [] at hr
        split at hr
        · cases hr
        · have := Option.some.inj hr
          rw [← this]
      · rw [get_most_recent_comic, if_neg hex] at hr
        cases hr

/-- Witness for C3 on the example archive: the selected date `2024-01-02`
belongs to the listing and is lexicographically maximal. -/
theorem resolver_spec_witness :
    sortDesc ((c3state.listing.filter (fun e => e.2)).map (fun e => e.1)) =
      ["2024-01-02", "2024-01-01"] ∧
    ("2024-01-02" ∈ (c3state.listing.filter (fun e => e.2)).map (fun e => e.1) ∧
      ∀ x ∈ (c3state.listing.filter (fun e => e.2)).map (fun e => e.1),
        pyStrLt "2024-01-02" x = false) :=
  ⟨by decide,
    ((resolver_spec c3state).2.1 "2024-01-02" ["2024-01-01"] (by decide)).1⟩

/-! ## Claim C9: README regeneration -/

/-- C9: when resolution finds no entry the README is left untouched; when it
finds one the README is fully overwritten with the fixed template, whose
content does not depend on the prior README (never merged). -/
theorem readme_update_spec (ast : ArchiveState) (r : String) :
    (get_most_recent_comic ast = none → update_readme ⟨ast, r⟩ = ⟨ast, r⟩) ∧
    (∀ d f p t, get_most_recent_comic ast = some (d, f, p, t) →
      (update_readme ⟨ast, r⟩).readme = renderReadme d f p t ∧
      ∀ r2 : String, (update_readme ⟨ast, r2⟩).readme = (update_readme ⟨ast, r⟩).readme) := by
  constructor
  · intro h
    simp [update_readme, h]
  · intro d f p t h
    refine ⟨by simp [update_readme, h], fun r2 => by simp [update_readme, h]⟩

/-- Witness for C9: on the empty archive the README `"old"` is unchanged. -/
theorem readme_update_spec_witness :
    get_most_recent_comic emptyArchive = none ∧
    update_readme ⟨emptyArchive, "old"⟩ = ⟨emptyArchive, "old"⟩ :=
  ⟨by decide, (readme_update_spec emptyArchive "old").1 (by decide)⟩

/-! ## Lemmas about the metadata title scan -/

theorem isPrefixOf_append (p t : List Char) : p.isPrefixOf (p ++ t) = true := by
  induction p with
  | nil => simp [List.isPrefixOf]
  | cons c cs ih => simp [List.isPrefixOf, ih]

theorem pyRemoveTitleAll_marker (z : List Char) :
    pyRemoveTitleAll (titleMarker ++ z) = pyRemoveTitleAll z := rfl

theorem pyRemoveTitleAll_cons_of_neg {c : Char} {cs : List Char}
    (h : titleMarker.isPrefixOf (c :: cs) = false) :
    pyRemoveTitleAll (c :: cs) = c :: pyRemoveTitleAll cs := by
  rw [pyRemoveTitleAll.eq_def]
  split
  · rename_i rest heq
    rw [show (c :: cs) = 'T' :: 'i' :: 't' :: 'l' :: 'e' :: ':' :: rest from heq] at h
    simp [titleMarker, List.isPrefixOf] at h
  · rename_i c2 cs2 hno heq
    injection heq with e1 e2
    subst e1
    subst e2
    rfl
  · rename_i heq
    cases heq

theorem containsSeqB_cons_parts {pat : List Char} {c : Char} {cs : List Char}
    (h : containsSeqB pat (c :: cs) = false) :
    pat.isPrefixOf (c :: cs) = false ∧ containsSeqB pat cs = false := by
  simpa [containsSeqB, Bool.or_eq_false_iff] using h

theorem pyRemoveTitleAll_of_not_contains {l : List Char}
    (h : containsSeqB titleMarker l = false) : pyRemoveTitleAll l = l := by
  induction l with
  | nil => rfl
  | cons c cs ih =>
    obtain ⟨h1, h2⟩ := containsSeqB_cons_parts h
    rw [pyRemoveTitleAll_cons_of_neg h1, ih h2]

theorem isPrefixOf_append_singleton_false {pat m : List Char} {c : Char}
    (hc : c ∉ pat) (hp : pat ≠ []) (h : pat.isPrefixOf m = false) :
    pat.isPrefixOf (m ++ [c]) = false := by
  induction pat generalizing m with
  | nil => exact absurd rfl hp
  | cons p ps ih =>
    cases m with
    | nil =>
      simp only [List.nil_append]
      simp only [List.isPrefixOf]
      cases ps with
      | nil =>
        have hpc : p ≠ c := fun he => hc (he ▸ List.mem_cons_self p [])
        simp [hpc]
      | cons q qs => simp [List.isPrefixOf]
    | cons y ys =>
      simp only [List.cons_append, List.isPrefixOf, Bool.and_eq_false_iff] at h ⊢
      rcases h with h | h
      · exact Or.inl h
      · by_cases hpy : (p == y) = true
        · cases ps with
          | nil => simp [List.isPrefixOf] at h
          | cons q qs =>
            have hc2 : c ∉ q :: qs := fun hm => hc (List.mem_cons_of_mem p hm)
            exact Or.inr (ih hc2 (by simp) h)
        · exact Or.inl (by revert hpy; cases (p == y) <;> simp)

theorem containsSeqB_append_singleton {pat l : List Char} {c : Char}
    (hc : c ∉ pat) (hp : pat ≠ []) (h : containsSeqB pat l = false) :
    containsSeqB pat (l ++ [c]) = false := by
  induction l with
  | nil =>
    simp only [List.nil_append, containsSeqB]
    have h1 : pat.isPrefixOf [c] = false := by
      have h0 : pat.isPrefixOf [] = false := by
        cases pat with
        | nil => exact absurd rfl hp
        | cons p ps => rfl
      exact isPrefixOf_append_singleton_false hc hp h0
    simp [h1]
    cases pat with
    | nil => exact absurd rfl hp
    | cons p ps => simp
  | cons x xs ih =>
    obtain ⟨h1, h2⟩ := containsSeqB_cons_parts h
    simp only [List.cons_append, containsSeqB, Bool.or_eq_false_iff]
    exact ⟨isPrefixOf_append_singleton_false hc hp h1, ih h2⟩

theorem splitAfterNl_append_line {l : List Char} (h : ('\n' : Char) ∉ l) (m : List Char) :
    splitAfterNl (l ++ '\n' :: m) = (l ++ ['\n']) :: splitAfterNl m := by
  induction l with
  | nil => simp [splitAfterNl]
  | cons c cs ih =>
    have hc : c ≠ '\n' := fun hq => h (hq ▸ List.mem_cons_self c cs)
    have hcs : ('\n' : Char) ∉ cs := fun hm => h (List.mem_cons_of_mem c hm)
    rw [List.cons_append]
    show splitAfterNl (c :: (cs ++ '\n' :: m)) = _
    rw [splitAfterNl.eq_def]
    simp only [if_neg hc, ih hcs]
    simp

theorem dropWhile_eq_self_head_false {p : Char → Bool} {c : Char} {cs : List Char}
    (h : (c :: cs).dropWhile p = c :: cs) : p c = false := by
  by_contra hb
  have hb2 : p c = true := by revert hb; cases p c <;> simp
  rw [List.dropWhile_cons_of_pos hb2] at h
  have hlen := congrArg List.length h
  have hle := (List.dropWhile_sublist (l := cs) p).length_le
  simp at hlen
  omega

theorem pyStrip_space_wrap {t : List Char}
    (h1 : t.dropWhile pyIsSpace = t)
    (h2 : t.reverse.dropWhile pyIsSpace = t.reverse) :
    pyStrip (String.mk (' ' :: (t ++ ['\n']))) = String.mk t := by
  unfold pyStrip
  have hsp : pyIsSpace ' ' = true := rfl
  have hnl : pyIsSpace '\n' = true := rfl
  cases t with
  | nil => rfl
  | cons c r =>
    have hcfalse : pyIsSpace c = false := dropWhile_eq_self_head_false h1
    have step1 : (' ' :: ((c :: r) ++ ['\n'])).dropWhile pyIsSpace = (c :: r) ++ ['\n'] := by
      rw [List.dropWhile_cons_of_pos hsp, List.cons_append,
        List.dropWhile_cons_of_neg (by simp [hcfalse])]
    rw [show (String.mk (' ' :: (c :: r ++ ['\n']))).data = ' ' :: ((c :: r) ++ ['\n']) from rfl]
    rw [step1]
    have hrev : ((c :: r) ++ ['\n']).reverse = '\n' :: (c :: r).reverse := by simp
    rw [hrev, List.dropWhile_cons_of_pos hnl, h2, List.reverse_reverse]

theorem scanTitle_eq_find (lines : List String) :
    scanTitle lines =
      match lines.find? (fun l => pyStartswithB "Title:" l) with
      | none => "No title available"
      | some line => pyStrip (String.mk (pyRemoveTitleAll line.data)) := by
  induction lines with
  | nil => rfl
  | cons l ls ih =>
    by_cases h : pyStartswithB "Title:" l = true
    · rw [scanTitle, if_pos h, List.find?_cons_of_pos ls h]
    · rw [scanTitle, if_neg h, List.find?_cons_of_neg ls h, ih]

/-! ## Claim C7: title resolution -/

/-- C7 (amended): when the resolver reaches the metadata step, a missing
file or a file with no `Title:` line resolves to the sentinel and resolution
still succeeds; a present first matching line resolves to that line with
every occurrence of `'Title:'` removed (not merely the leading marker) and
surrounding whitespace stripped. -/
theorem title_resolution_amended (st : ArchiveState) (d : String) (ds : List String)
    (img : String) (imgs : List String)
    (hex : st.dataDirExists = true)
    (hsort : sortDesc ((st.listing.filter (fun e => e.2)).map (fun e => e.1)) = d :: ds)
    (hpng : globPng (st.filesIn d) = img :: imgs) :
    (st.readFile d (pyRsplitDot1Head img ++ "_metadata.txt") = none →
      get_most_recent_comic st = some (d, pyRsplitDot1Head img,
        pyReplaceSpace ("data/" ++ d ++ "/" ++ img), "No title available")) ∧
    (∀ contents, st.readFile d (pyRsplitDot1Head img ++ "_metadata.txt") = some contents →
      get_most_recent_comic st = some (d, pyRsplitDot1Head img,
        pyReplaceSpace ("data/" ++ d ++ "/" ++ img),
        match (pyFileLines contents).find? (fun l => pyStartswithB "Title:" l) with
        | none => "No title available"
        | some line => pyStrip (String.mk (pyRemoveTitleAll line.data)))) := by
  constructor
  · intro h
    rw [get_most_recent_comic, if_pos hex, hsort]
    simp only []
    rw [hpng]
    simp only [h]
  · intro contents h
    rw [get_most_recent_comic, if_pos hex, hsort]
    simp only []
    rw [hpng]
    simp only [h, scanTitle_eq_find]

/-- Witness for the amended C7 on the `c7state` archive. -/
theorem title_resolution_amended_witness :
    c7state.readFile "2024-01-01" (pyRsplitDot1Head "comic.png" ++ "_metadata.txt") =
      some "Title: Title: X\n" ∧
    get_most_recent_comic c7state = some ("2024-01-01", pyRsplitDot1Head "comic.png",
      pyReplaceSpace ("data/" ++ "2024-01-01" ++ "/" ++ "comic.png"),
      match (pyFileLines "Title: Title: X\n").find? (fun l => pyStartswithB "Title:" l) with
      | none => "No title available"
      | some line => pyStrip (String.mk (pyRemoveTitleAll line.data))) :=
  ⟨by decide,
    (title_resolution_amended c7state "2024-01-01" [] "comic.png" [] rfl
      (by decide) (by decide)).2 "Title: Title: X\n" (by decide)⟩

/-- C7 is false as stated: `replace('Title:', '')` removes every occurrence
of the marker, so when the remainder of the title line itself contains
`Title:`, the code resolves `"X"` whereas the claim's reading (remainder
after the leading marker, trimmed) gives `"Title: X"`. -/
theorem title_resolution_cex :
    (get_most_recent_comic c7state).map (fun r => r.2.2.2) = some "X" ∧
    title_per_claim "Title: Title: X\n" = "Title: X" ∧
    (some "X" : Option String) ≠ some "Title: X" :=
  ⟨by decide, by decide, by decide⟩

/-! ## Claim C10: writer/resolver title round trip -/

/-- C10: for a title with no leading or trailing whitespace, no newline and
no occurrence of `Title:`, archiving writes the sidecar text and resolving
the same metadata file recovers exactly the original title. -/
theorem title_round_trip (t u : String)
    (h1 : t.data.dropWhile pyIsSpace = t.data)
    (h2 : t.data.reverse.dropWhile pyIsSpace = t.data.reverse)
    (h3 : ('\n' : Char) ∉ t.data)
    (h4 : containsSeqB titleMarker t.data = false) :
    (get_most_recent_comic (roundTripState t u)).map (fun r => r.2.2.2) = some t := by
  have hres : get_most_recent_comic (roundTripState t u) =
      some ("2024-01-01", "comic", "data/2024-01-01/comic.png",
        scanTitle (pyFileLines (metadataContent t u))) := rfl
  have hTdata : ("Title: " : String).data = ['T', 'i', 't', 'l', 'e', ':', ' '] := rfl
  have hmeta : (metadataContent t u).data =
      (("Title: " : String).data ++ t.data) ++ '\n' ::
        ("Image URL: " ++ u ++ "\n" : String).data := by
    simp [metadataContent, String.data_append, List.append_assoc]
  have h5 : ('\n' : Char) ∉ ("Title: " : String).data ++ t.data := by
    intro hm
    rcases List.mem_append.mp hm with hm1 | hm2
    · rw [hTdata] at hm1
      simp at hm1
    · exact h3 hm2
  have hlines : pyFileLines (metadataContent t u) =
      String.mk (titleMarker ++ (' ' :: (t.data ++ ['\n']))) ::
        (splitAfterNl ("Image URL: " ++ u ++ "\n" : String).data).map String.mk := by
    unfold pyFileLines
    rw [hmeta, splitAfterNl_append_line h5, List.map_cons]
    have hhead : (("Title: " : String).data ++ t.data) ++ ['\n'] =
        titleMarker ++ (' ' :: (t.data ++ ['\n'])) := by
      rw [hTdata]
      simp [titleMarker, List.append_assoc]
    rw [hhead]
  have hstart : pyStartswithB "Title:" (String.mk (titleMarker ++ (' ' :: (t.data ++ ['\n'])))) =
      true := by
    unfold pyStartswithB
    exact isPrefixOf_append titleMarker (' ' :: (t.data ++ ['\n']))
  have hnc : containsSeqB titleMarker (' ' :: (t.data ++ ['\n'])) = false := by
    have hz : containsSeqB titleMarker (t.data ++ ['\n']) = false :=
      containsSeqB_append_singleton (by decide) (by decide) h4
    simp only [containsSeqB, Bool.or_eq_false_iff]
    refine ⟨?_, hz⟩
    simp [titleMarker, List.isPrefixOf]
  have hmain : scanTitle (pyFileLines (metadataContent t u)) = t := by
    rw [hlines]
    simp only [scanTitle]
    rw [if_pos hstart]
    show pyStrip (String.mk (pyRemoveTitleAll (titleMarker ++ (' ' :: (t.data ++ ['\n']))))) = t
    rw [pyRemoveTitleAll_marker, pyRemoveTitleAll_of_not_contains hnc]
    show pyStrip (String.mk (' ' :: (t.data ++ ['\n']))) = t
    rw [pyStrip_space_wrap h1 h2]
  rw [hres]
  show some (scanTitle (pyFileLines (metadataContent t u))) = some t
  exact congrArg some hmain

/-- Witness for C10 at the concrete title `"T rex"`. -/
theorem title_round_trip_witness :
    containsSeqB titleMarker ("T rex" : String).data = false ∧
    (get_most_recent_comic (roundTripState "T rex" "https://www.qwantz.com/x.png")).map
      (fun r => r.2.2.2) = some "T rex" :=
  ⟨by decide,
    title_round_trip "T rex" "https://www.qwantz.com/x.png"
      (by decide) (by decide) (by decide) (by decide)⟩
